import Mathlib

/-
Verification of the ChronosSim simulation engine against its specification.

The definitions below are a shallow embedding of the Python sources:
  src/model/simulation/simulation_handler.py   (SimulationManager)
  src/model/simulation/simulation_worker.py    (SimulationWorker)
  src/model/node/SprayAndWaitNode.py
  src/model/node/SprayAndWaitLimitedNode.py
  src/model/node/EpidemicRouting.py
  src/model/node/SprayAndFocus.py
  src/model/grid/SimpleRandomGrid.py, src/model/grid/BaseSimulationGrid.py

Conventions: Python dicts that preserve insertion order are embedded as
association lists; Python object identity for messages is embedded as an
explicit store of messages addressed by reference tokens where sharing
matters, and as the unique message id elsewhere; floats that only ever
hold exact small values are embedded as rationals.
-/

set_option maxRecDepth 4000

namespace Chronos

/-- SimulationState enum from simulation_handler.py (Empty, RUNNING, PAUSED). -/
inductive SimulationState
  | Empty
  | RUNNING
  | PAUSED
deriving DecidableEq, Repr

/-- A Python value that can appear in the equality tests of the manager:
either a member of the SimulationState enum or a str. -/
inductive PyVal
  | enumState (s : SimulationState)
  | str (s : String)
deriving DecidableEq, Repr

/-- Python equality between such values. `SimulationState` derives from plain
`enum.Enum` (not `str, Enum`), so comparing an enum member with a `str` falls
back to identity and yields `False`; two enum members are equal iff they are
the same member, two strings iff their text is equal. -/
def pyEq : PyVal → PyVal → Bool
  | .enumState a, .enumState b => a == b
  | .str a, .str b => a == b
  | _, _ => false

/-- ConfigError from exception/exception.py (the ConfigurationError of the spec). -/
structure ConfigError where
  msg : String
deriving DecidableEq, Repr

/-- The configuration slice of SimulationManager state that the mutators touch.
The payload types of grid, node and the spawners are irrelevant to the claims,
so they are parameters. -/
structure Manager (G N MS TS : Type) where
  status : SimulationState
  grid : Option G
  node : Option N
  message_spawner : Option MS
  target_spawner : Option TS
deriving DecidableEq, Repr

/-- SimulationManager._ensure_editable, lines 180-184: compares `self.status`
(an enum member) against the strings "running" and "paused". -/
def ensure_editable {G N MS TS : Type} (m : Manager G N MS TS) :
    Except ConfigError Unit :=
  if pyEq (.enumState m.status) (.str "running") then
    .error ⟨"Cannot modify simulation while it is running"⟩
  else if pyEq (.enumState m.status) (.str "paused") then
    .error ⟨"Stop the simulation before making changes"⟩
  else
    .ok ()

/-- SimulationManager.set_grid, lines 186-190. The UI refresh and pubsub
notification do not touch the stored configuration fields. -/
def set_grid {G N MS TS : Type} (m : Manager G N MS TS) (g : Option G) :
    Except ConfigError (Manager G N MS TS) := do
  ensure_editable m
  pure { m with grid := g }

/-- SimulationManager.set_node, lines 192-196. -/
def set_node {G N MS TS : Type} (m : Manager G N MS TS) (n : Option N) :
    Except ConfigError (Manager G N MS TS) := do
  ensure_editable m
  pure { m with node := n }

/-- SimulationManager.set_message_spawner, lines 198-203. -/
def set_message_spawner {G N MS TS : Type} (m : Manager G N MS TS)
    (ms : Option MS) : Except ConfigError (Manager G N MS TS) := do
  ensure_editable m
  pure { m with message_spawner := ms }

/-- SimulationManager.set_target_spawner, lines 205-211. -/
def set_target_spawner {G N MS TS : Type} (m : Manager G N MS TS)
    (ts : Option TS) : Except ConfigError (Manager G N MS TS) := do
  ensure_editable m
  pure { m with target_spawner := ts }

end Chronos

namespace Chronos.CreateSims

/-- Parameter names of SimulationWorker.__init__ (lines 62-74), excluding
self, paired with whether the parameter has a default value. -/
def workerParams : List (String × Bool) :=
  [("node_type", false), ("grid_type", false), ("sim_data", false),
   ("pickled_message_spawner", false), ("pickled_message_template", false),
   ("node_count", false), ("step_count", false), ("control_queue", false),
   ("results_queue", false), ("step_delay", true)]

/-- Keyword argument names used at the SimulationWorker construction site in
SimulationManager.create_simulations (lines 218-228), in source order. -/
def createCallKwargs : List String :=
  ["pickled_node_type", "pickled_grid_type", "pickled_message_spawner",
   "pickled_message_template", "node_count", "step_count",
   "control_queue", "results_queue", "step_delay"]

/-- TypeError raised by Python when binding call arguments to parameters. -/
inductive CallError
  | unexpectedKeyword (k : String)
  | missingArgument (k : String)
deriving DecidableEq, Repr

/-- Python keyword-argument binding for a call that passes every argument by
keyword: the first keyword that matches no parameter name raises a TypeError;
otherwise a required parameter not covered by any keyword raises a TypeError. -/
def bindKwargs (params : List (String × Bool)) (kwargs : List String) :
    Except CallError Unit :=
  match kwargs.find? (fun k => !(params.any (fun p => p.1 == k))) with
  | some k => .error (.unexpectedKeyword k)
  | none =>
    match params.find? (fun p => !p.2 && !(kwargs.any (fun k => k == p.1))) with
    | some p => .error (.missingArgument p.1)
    | none => .ok ()

/-- ConfigError or TypeError escaping create_simulations. -/
inductive CreateError
  | config (msg : String)
  | typeError (e : CallError)
deriving DecidableEq, Repr

/-- The slice of manager state that create_simulations reads and writes:
whether the three required configuration pieces are set, the lifecycle
status, the number of instances to create, and the registry of simulation
entries (represented by their ids). -/
structure CreateState where
  gridSet : Bool
  nodeSet : Bool
  spawnerSet : Bool
  status : SimulationState
  num_simulations : Nat
  simulations : List Nat
deriving DecidableEq, Repr

/-- Body of the creation loop in create_simulations (lines 217-235): each
iteration first constructs a SimulationWorker (which binds the keyword
arguments of the call site against the parameters of __init__) and only then
registers the entry. The loop stops at the first raised error. -/
def createLoop : Nat → List Nat → Except CreateError (List Nat)
  | 0, sims => .ok sims
  | n + 1, sims =>
    match bindKwargs workerParams createCallKwargs with
    | .error e => .error (.typeError e)
    | .ok _ => createLoop n (sims ++ [sims.length])

/-- SimulationManager.create_simulations, lines 213-266. Returns the updated
registry on success; an error leaves the registry as it was at the point the
error was raised, which the second component reports. -/
def create_simulations (s : CreateState) :
    Except CreateError (List Nat) × List Nat :=
  if s.gridSet && s.nodeSet && s.spawnerSet then
    if s.status = SimulationState.Empty then
      match createLoop s.num_simulations s.simulations with
      | .error e => (.error e, s.simulations)
      | .ok sims => (.ok sims, sims)
    else if s.status = SimulationState.PAUSED then
      (.ok s.simulations, s.simulations)
    else
      (.error (.config "Simulation is already running"), s.simulations)
  else
    (.error (.config "Grid, Node, and Message Spawner must be set"), s.simulations)

end Chronos.CreateSims

namespace Chronos.SprayWait

/-- A BaseMessage as far as the exchange pipeline reads it: its id and its
mutable hop counter. -/
structure Msg where
  id : String
  hops : Nat
deriving DecidableEq, Repr

/-- The Python heap of message objects: a message reference is an index into
this store. Two buffer entries that hold the same reference alias the same
mutable message object. -/
abbrev Store := List Msg

/-- Reads the message object behind a reference. -/
def getMsg (store : Store) (r : Nat) : Msg :=
  store.getD r ⟨"", 0⟩

/-- Mutation `message.hops += 1` on the object behind reference r. -/
def bumpHops : Store → Nat → Store
  | [], _ => []
  | m :: rest, 0 => { m with hops := m.hops + 1 } :: rest
  | m :: rest, r + 1 => m :: bumpHops rest r

/-- increment_hops from simulation_worker.py lines 374-378: bumps the hop
counter of every message object in the handed-over list, in order. -/
def increment_hops (store : Store) (refs : List Nat) : Store :=
  refs.foldl bumpHops store

/-- SprayAndWaitNode state: `messages` is the dict from sender id to a list
of [message, count] entries (entries hold references into the store), and
`_recent_senders` is the per-collision set of sender ids. -/
structure SWNode where
  id : String
  messages : List (String × List (Nat × Nat))
  recent_senders : List String
deriving DecidableEq, Repr

/-- The "first" selection strategy of SprayAndWaitNode.send_message lines
87-95: the head entry of the first non-empty message list, if any. -/
def firstRef : List (String × List (Nat × Nat)) → Option Nat
  | [] => none
  | (_, []) :: rest => firstRef rest
  | (_, e :: _) :: _ => some e.1

/-- SprayAndWaitNode.send_message lines 68-125 for the default strategy
"first": refuse when the receiver just sent to us or the buffer dict is
empty, otherwise offer the first held message (without removing it). -/
def send_message (node : SWNode) (receivingId : String) : Option (List Nat) :=
  if receivingId ∈ node.recent_senders then none
  else if node.messages.isEmpty then none
  else
    match firstRef node.messages with
    | some r => some [r]
    | none => none

/-- Lines 137-146 of SprayAndWaitNode.receive_message for one incoming
message: scan the existing entries of this sender for one whose message has
the same id; increment its count if found, otherwise append [message, 1].
The appended entry holds the incoming reference itself. -/
def addRef (store : Store) : List (Nat × Nat) → Nat → List (Nat × Nat)
  | [], r => [(r, 1)]
  | e :: rest, r =>
    if (getMsg store e.1).id = (getMsg store r).id then (e.1, e.2 + 1) :: rest
    else e :: addRef store rest r

/-- Creates the entry list for a sender id on first contact (lines 135-136). -/
def ensureSender (buf : List (String × List (Nat × Nat))) (sid : String) :
    List (String × List (Nat × Nat)) :=
  if buf.any (fun e => e.1 == sid) then buf else buf ++ [(sid, [])]

/-- Rewrites the entry list stored under a sender id (dict item assignment). -/
def updateSender :
    List (String × List (Nat × Nat)) → String →
      (List (Nat × Nat) → List (Nat × Nat)) → List (String × List (Nat × Nat))
  | [], _, _ => []
  | e :: rest, sid, f =>
    if e.1 = sid then (e.1, f e.2) :: rest else e :: updateSender rest sid f

/-- SprayAndWaitNode.receive_message lines 127-148: record the sender,
ensure its slot, fold every incoming message into that slot, and finally
reset `_recent_senders` to the empty set (line 148), which also erases the
sender id added at line 133. -/
def receive_message (store : Store) (node : SWNode) (msgs : List Nat)
    (senderId : String) : SWNode :=
  let buf0 := ensureSender node.messages senderId
  let buf := msgs.foldl (fun b r => updateSender b senderId (fun l => addRef store l r)) buf0
  { node with messages := buf, recent_senders := [] }

/-- One direction of the fallback simple exchange in
SimulationWorker._simulate_step lines 316-319: `message_A_to_B =
node_a.send_message(node_b)`, then `node_b.receive_message(...)`, then
`increment_hops(message_A_to_B)`. -/
def simpleExchange (store : Store) (a b : SWNode) : Store × SWNode × SWNode :=
  match send_message a b.id with
  | none => (store, a, b)
  | some msgs =>
    let b2 := receive_message store b msgs a.id
    let store2 := increment_hops store msgs
    (store2, a, b2)

/-- All message references a node currently holds in its buffer. -/
def heldRefs (node : SWNode) : List Nat :=
  (node.messages.map (fun p => p.2.map Prod.fst)).flatten

/-- Total copy count a sender slot stores for a given message id. -/
def countFor (store : Store) : List (Nat × Nat) → String → Nat
  | [], _ => 0
  | e :: rest, mid =>
    (if (getMsg store e.1).id = mid then e.2 else 0) + countFor store rest mid

/-- Copy count stored for a message id under a given sender id. -/
def senderCount (store : Store) (buf : List (String × List (Nat × Nat)))
    (sid : String) (mid : String) : Nat :=
  match buf.find? (fun e => e.1 == sid) with
  | none => 0
  | some e => countFor store e.2 mid

end Chronos.SprayWait

namespace Chronos.SprayLimited

/-- A buffer entry of SprayAndWaitLimitedNode: the message (by its unique
id), the copy count the dict stores for it (always written as 1), and the
local TTL kept in the message props. -/
structure LimEntry where
  mid : String
  count : Nat
  ttl : Int
deriving DecidableEq, Repr

/-- SprayAndWaitLimitedNode state relevant to its capacity gate. -/
structure LimNode where
  buffer : List LimEntry
  max_ttl : Nat
  min_ttl : Int
  is_full : Bool
  recent_senders : List String
deriving DecidableEq, Repr

/-- Dict assignment `self.messages[message] = 1` together with
`message.props["ttl"] = max_ttl`: overwrite the entry of this message if it
is already a key, otherwise append a fresh entry. -/
def limInsert : List LimEntry → String → Int → List LimEntry
  | [], mid, t => [⟨mid, 1, t⟩]
  | e :: rest, mid, t =>
    if e.mid = mid then ⟨e.mid, 1, t⟩ :: rest else e :: limInsert rest mid t

/-- SprayAndWaitLimitedNode.receive_message lines 110-117: each incoming
message is stored (with TTL reset to max_ttl and count 1) unless the
`is_full` flag is set; the flag itself is never written here, and
`_recent_senders` ends empty. -/
def receive_message (n : LimNode) (msgs : List String) : LimNode :=
  let buf := msgs.foldl
    (fun b mid => if n.is_full then b else limInsert b mid (n.max_ttl : Int)) n.buffer
  { n with buffer := buf, recent_senders := [] }

/-- SprayAndWaitLimitedNode.on_message_create lines 119-125: insert unless
`is_full`, then raise the flag when the buffer has reached max_ttl entries. -/
def on_message_create (n : LimNode) (mid : String) : LimNode :=
  if n.is_full then n
  else
    let buf := limInsert n.buffer mid (n.max_ttl : Int)
    if n.max_ttl ≤ buf.length then { n with buffer := buf, is_full := true }
    else { n with buffer := buf }

/-- SprayAndWaitLimitedNode.on_simulation_step_end lines 130-139: decrement
every TTL, drop entries at or below min_ttl, and clear the flag when the
buffer is below max_ttl entries. -/
def on_simulation_step_end (n : LimNode) : LimNode :=
  let buf := (n.buffer.map (fun e => { e with ttl := e.ttl - 1 })).filter
    (fun e => !(e.ttl ≤ n.min_ttl))
  if buf.length < n.max_ttl then { n with buffer := buf, is_full := false }
  else { n with buffer := buf }

end Chronos.SprayLimited

namespace Chronos.Epidemic

/-- EpidemicRoutingNode state slice used by its buffer management. The
`messages` dict (keyed by message object) and the `message_seen_times` dict
(keyed by message id) are merged into one insertion-ordered list of
(message id, first-seen time) entries; this coincides with the source
whenever held messages have pairwise distinct ids, which is the regime of
the claim. `current_time` starts at 0.0 and grows by 1.0 per step, so it is
embedded as a natural number. -/
structure ENode where
  buffer : List (String × Nat)
  buffer_size : Nat
  current_time : Nat
deriving DecidableEq, Repr

/-- Value of `min(self.messages.keys(), key=...seen time...)`: the minimal
first-seen time in the buffer (Python min keeps the first strict minimum,
so the entry removed is the first one carrying this value). -/
def minSeen : List (String × Nat) → Nat
  | [] => 0
  | e :: rest => rest.foldl (fun acc x => Nat.min acc x.2) e.2

/-- One iteration of the while loop of manage_buffer (lines 60-67): delete
the first entry whose first-seen time is minimal. -/
def removeOldest (buf : List (String × Nat)) : List (String × Nat) :=
  buf.eraseP (fun e => e.2 == minSeen buf)

/-- The while loop of manage_buffer, driven by explicit fuel. Every
iteration of the source loop removes exactly one entry, so the loop runs at
most (initial length) times; manage_buffer below supplies that fuel. -/
def manageFuel : Nat → Nat → List (String × Nat) → List (String × Nat)
  | 0, _, buf => buf
  | fuel + 1, cap, buf =>
    if cap < buf.length then manageFuel fuel cap (removeOldest buf) else buf

/-- EpidemicRoutingNode.manage_buffer lines 55-67: evict oldest-seen
messages while the buffer exceeds buffer_size. -/
def manage_buffer (cap : Nat) (buf : List (String × Nat)) : List (String × Nat) :=
  manageFuel buf.length cap buf

/-- EpidemicRoutingNode.receive_message lines 85-95: store each message not
seen before, stamped with the current time, then run manage_buffer. -/
def receive_message (n : ENode) (msgs : List String) : ENode :=
  let buf := msgs.foldl
    (fun b mid => if b.any (fun e => e.1 == mid) then b else b ++ [(mid, n.current_time)])
    n.buffer
  { n with buffer := manage_buffer n.buffer_size buf }

/-- EpidemicRoutingNode.on_message_create lines 103-106: store the message
(resetting its seen time if it is already held), then run manage_buffer. -/
def on_message_create (n : ENode) (mid : String) : ENode :=
  let buf :=
    if n.buffer.any (fun e => e.1 == mid) then
      n.buffer.map (fun e => if e.1 == mid then (e.1, n.current_time) else e)
    else n.buffer ++ [(mid, n.current_time)]
  { n with buffer := manage_buffer n.buffer_size buf }

/-- EpidemicRoutingNode.on_simulation_step_end lines 100-101. -/
def on_simulation_step_end (n : ENode) : ENode :=
  { n with current_time := n.current_time + 1 }

/-- Creation of a sequence of messages, one per simulation step: each
message is created via on_message_create and a step end passes before the
next (so consecutive messages carry strictly increasing seen times). -/
def createSeq (n : ENode) : List String → ENode
  | [] => n
  | mid :: rest => createSeq (on_simulation_step_end (on_message_create n mid)) rest

/-- Buffer entries for a list of message ids first seen at consecutive
times starting from t. -/
def timeStamped : List String → Nat → List (String × Nat)
  | [], _ => []
  | mid :: rest, t => (mid, t) :: timeStamped rest (t + 1)

end Chronos.Epidemic

namespace Chronos.SprayFocus

/-- Looks up a rational value in a defaultdict(float): missing keys read 0. -/
def lookupQ (l : List (String × ℚ)) (k : String) : ℚ :=
  ((l.find? (fun e => e.1 == k)).map Prod.snd).getD 0

/-- Looks up a count in a defaultdict(int): missing keys read 0. -/
def lookupN (l : List (String × Nat)) (k : String) : Nat :=
  ((l.find? (fun e => e.1 == k)).map Prod.snd).getD 0

/-- Dict assignment: overwrite the entry if the key exists, else append it. -/
def setQ : List (String × ℚ) → String → ℚ → List (String × ℚ)
  | [], k, v => [(k, v)]
  | e :: rest, k, v => if e.1 = k then (k, v) :: rest else e :: setQ rest k v

/-- Dict assignment for counts. -/
def setN : List (String × Nat) → String → Nat → List (String × Nat)
  | [], k, v => [(k, v)]
  | e :: rest, k, v => if e.1 = k then (k, v) :: rest else e :: setN rest k v

/-- Increment on a defaultdict(int): missing keys start from 0. -/
def addN (l : List (String × Nat)) (k : String) : List (String × Nat) :=
  setN l k (lookupN l k + 1)

/-- SprayAndFocusNode state. Times and the threshold are floats in the
source holding exact small values; they are embedded as rationals. The
`buffer` is the messages defaultdict from message id to copy count. -/
structure FNode where
  buffer : List (String × Nat)
  last_encounter_times : List (String × ℚ)
  encounter_counts : List (String × Nat)
  current_time : ℚ
  utility_threshold : ℚ
  message_selection_strategy : String
  recent_senders : List String
deriving DecidableEq, Repr

/-- SprayAndFocusNode.calculate_utility lines 59-72: zero for a node never
encountered, otherwise encounter count over (time since last encounter + 1),
clamped from above by 1. -/
def calculate_utility (n : FNode) (nodeId : String) : ℚ :=
  if n.encounter_counts.any (fun e => e.1 == nodeId) then
    let freq : ℚ := (lookupN n.encounter_counts nodeId : ℚ)
    let tSince : ℚ := n.current_time - lookupQ n.last_encounter_times nodeId
    min 1 (freq / (tSince + 1))
  else 0

/-- Encounter-history update at the top of SprayAndFocusNode.send_message
(lines 82-83): record the current time as the last encounter with the peer
and increment its encounter count. -/
def encounterUpdate (n : FNode) (rid : String) : FNode :=
  { n with
    last_encounter_times := setQ n.last_encounter_times rid n.current_time,
    encounter_counts := addN n.encounter_counts rid }

/-- SprayAndFocusNode.send_message lines 74-109. Returns the sent message
list (a repeated id means that many copies) and the updated node. The
encounter history is updated first (lines 82-83); the candidate set follows
the selection strategy (lines 88-93); the utility is computed on the updated
state (line 96); each candidate with more than one copy is sprayed
(send count // 2, keep the rest), and a single-copy candidate is forwarded
exactly when the utility reaches the threshold (lines 98-107). -/
def send_message (n : FNode) (rid : String) : Option (List String) × FNode :=
  if rid ∈ n.recent_senders then (none, n)
  else if n.buffer.isEmpty then (none, n)
  else
    let n1 := encounterUpdate n rid
    let candidates :=
      if n1.message_selection_strategy = "First" then (n1.buffer.take 1).map Prod.fst
      else if n1.message_selection_strategy = "Last" then
        ((n1.buffer.map Prod.fst).reverse.take 1).reverse
      else n1.buffer.map Prod.fst
    let utility := calculate_utility n1 rid
    let sentBuf := candidates.foldl
      (fun (acc : List String × List (String × Nat)) mid =>
        let c := lookupN acc.2 mid
        if 1 < c then
          let k := c / 2
          (acc.1 ++ List.replicate k mid, setN acc.2 mid (c - k))
        else if n1.utility_threshold ≤ utility then
          (acc.1 ++ [mid], setN acc.2 mid 0)
        else acc)
      ([], n1.buffer)
    let n2 := { n1 with buffer := sentBuf.2 }
    (if sentBuf.1.isEmpty then none else some sentBuf.1, n2)

end Chronos.SprayFocus

namespace Chronos.Grid

/-- A node as the grid reads it: its id (uuid-fresh per object, so id
equality coincides with Python object identity), its position, and its own
detection range. Positions and ranges are floats in the source; they are
embedded as rationals. -/
structure GNode where
  id : String
  pos : ℚ × ℚ
  detection_range : ℚ
deriving DecidableEq, Repr

/-- SimpleRandomGrid state: dimensions and the region dictionary from
region code to the list of nodes indexed there. -/
structure SGrid where
  width : Nat
  length : Nat
  region_size : Nat
  regions : List ((Int × Int) × List GNode)
deriving DecidableEq, Repr

/-- BaseSimulationGrid._get_region lines 72-75: floor-divide each coordinate
by the region size. -/
def get_region (g : SGrid) (x y : ℚ) : Int × Int :=
  (⌊x / (g.region_size : ℚ)⌋, ⌊y / (g.region_size : ℚ)⌋)

/-- Number of region indices per axis: `math.ceil(total / region_size)`. -/
def regionCount (total rs : Nat) : Int :=
  ⌈(total : ℚ) / (rs : ℚ)⌉

/-- BaseSimulationGrid._get_neighbors lines 77-90: the 3 by 3 block of
region codes around a region, clipped to the grid bounds, in row-major
visit order of the two loops. -/
def get_neighbors (g : SGrid) (region : Int × Int) : List (Int × Int) :=
  (([-1, 0, 1] : List Int).map (fun i =>
    (([-1, 0, 1] : List Int).filterMap (fun j =>
      let nx := region.1 + i
      let ny := region.2 + j
      if 0 ≤ nx ∧ nx < regionCount g.width g.region_size ∧
          0 ≤ ny ∧ ny < regionCount g.length g.region_size then
        some (nx, ny)
      else none)))).flatten

/-- Distance test of SimpleRandomGrid.detect_collision lines 74-77:
`math.dist(node.position, other.position) <= node.detection_range`, stated
on squares, which is equivalent for the nonnegative ranges the settings
allow (the range used is the one of the querying node). -/
def within_range (node other : GNode) : Bool :=
  decide ((node.pos.1 - other.pos.1) ^ 2 + (node.pos.2 - other.pos.2) ^ 2 ≤
    node.detection_range ^ 2)

/-- Nodes indexed under a region code (`self.grid[reg]`, empty when the
code is absent). -/
def regionNodes (g : SGrid) (reg : Int × Int) : List GNode :=
  ((g.regions.find? (fun e => e.1 == reg)).map Prod.snd).getD []

/-- SimpleRandomGrid.detect_collision lines 64-80: walk the neighbor
regions present in the grid dict and collect all other nodes (object
identity embedded as id equality) within the querying node detection
range. -/
def detect_collision (g : SGrid) (node : GNode) : List GNode :=
  let region := get_region g node.pos.1 node.pos.2
  (get_neighbors g region).foldl
    (fun acc reg =>
      acc ++ (regionNodes g reg).filter
        (fun other => !(other.id == node.id) && within_range node other))
    []

end Chronos.Grid

namespace Chronos.Worker

/-- Control commands the manager broadcasts on the control queue. -/
inductive Command
  | resume
  | pause
  | stop
deriving DecidableEq, Repr

/-- The control-facing slice of SimulationWorker state for the main loop:
the step counter, the configured step_count, the status string, and the
control queue contents (front of the list is the next command read). -/
structure WState where
  step : Nat
  step_count : Nat
  status : String
  queue : List Command
deriving DecidableEq, Repr

/-- The control-handling prefix of one iteration of SimulationWorker.simulate
(lines 122-134). `none` models the worker blocking forever in the blocking
`control_queue.get()` of the pause branch when no further command ever
arrives. In the pause branch the status is set to "paused", then to
"stopped" if the blocking read returns a stop command, and then
unconditionally to "running" (lines 125-130); a stop command read by the
non-blocking get only sets the status string (lines 131-132). -/
def handleControl (s : WState) : Option WState :=
  match s.queue with
  | [] => some s
  | c :: rest =>
    match c with
    | .pause =>
      let s1 := { s with status := "paused", queue := rest }
      match s1.queue with
      | [] => none
      | c2 :: rest2 =>
        let s2 :=
          if c2 = Command.stop then { s1 with status := "stopped", queue := rest2 }
          else { s1 with queue := rest2 }
        some { s2 with status := "running" }
    | .stop => some { s with status := "stopped", queue := rest }
    | .resume => some { s with queue := rest }

/-- One full iteration of the while body of SimulationWorker.simulate
(lines 121-147): handle control, then spawn, step, report and move (which
do not touch this state slice), and finally increment the step counter. -/
def loopIter (s : WState) : Option WState :=
  (handleControl s).map (fun t => { t with step := t.step + 1 })

/-- The while loop of SimulationWorker.simulate, driven by explicit fuel. -/
def simulateFuel : Nat → WState → Option WState
  | 0, s => some s
  | fuel + 1, s =>
    if s.step < s.step_count then
      match loopIter s with
      | none => none
      | some t => simulateFuel fuel t
    else some s

/-- SimulationWorker.simulate lines 119-147: the loop runs while
`step < step_count` and every iteration increments step by exactly one, so
it performs exactly `step_count - step` iterations; that number is supplied
as fuel. -/
def simulate (s : WState) : Option WState :=
  simulateFuel (s.step_count - s.step) s

end Chronos.Worker

namespace Chronos.StepTrace

/-- Observable calls made by the worker during one iteration of its main
loop, projected onto what the claim speaks about. Nodes are identified by
their index in `grid.nodes`. -/
inductive Event
  | spawnMessages
  | preCollision (a b : Nat)
  | exchange (a b : Nat)
  | collisionComplete (n : Nat)
  | stepEnd (n : Nat)
  | move (n : Nat)
  | sendState
deriving DecidableEq, Repr

/-- Calls made while processing one collision pair in phase 3 of
_simulate_step (lines 227-351): the message exchange of the pair (target,
two-phase or simple), then on_collision_complete on both sides. -/
def pairEvents (p : Nat × Nat) : List Event :=
  [.exchange p.1 p.2, .collisionComplete p.1, .collisionComplete p.2]

/-- Call trace of SimulationWorker._simulate_step (lines 159-358) for a
given shuffled collision-pair list: phase 2 metadata exchange over the
pairs, phase 3 exchange plus collision completion over the pairs, and
phase 4, `on_simulation_step_end` on every node of the grid
(lines 353-355). -/
def simulateStepEvents (pairs : List (Nat × Nat)) (nodes : List Nat) : List Event :=
  (pairs.map (fun p => Event.preCollision p.1 p.2)) ++
    (pairs.map pairEvents).flatten ++ nodes.map Event.stepEnd

/-- Call trace of one iteration of the while body of
SimulationWorker.simulate (lines 136-146): spawn messages, run
_simulate_step, send the current state, then call on_simulation_step_end
followed by move on every node of the grid. -/
def loopBodyEvents (pairs : List (Nat × Nat)) (nodes : List Nat) : List Event :=
  Event.spawnMessages :: simulateStepEvents pairs nodes ++ [Event.sendState] ++
    (nodes.map (fun n => [Event.stepEnd n, Event.move n])).flatten

end Chronos.StepTrace

namespace Chronos

/-- C1: evaluation of the configuration mutators on a manager whose status
is RUNNING or PAUSED. Because _ensure_editable compares the SimulationState
enum member against the strings "running" and "paused" (which is always
false in Python), no mutator raises ConfigurationError in those states: each
call returns normally and overwrites the stored configuration. The claim is
right about the intended contract (the error messages of _ensure_editable
state it) and the code is wrong. -/
theorem set_grid_mutates_while_running :
    set_grid (⟨.RUNNING, some 0, some 0, some 0, some 0⟩ : Manager Nat Nat Nat Nat)
        (some 1) = .ok ⟨.RUNNING, some 1, some 0, some 0, some 0⟩ ∧
    set_grid (⟨.PAUSED, some 0, some 0, some 0, some 0⟩ : Manager Nat Nat Nat Nat)
        (some 1) = .ok ⟨.PAUSED, some 1, some 0, some 0, some 0⟩ ∧
    set_node (⟨.RUNNING, some 0, some 0, some 0, some 0⟩ : Manager Nat Nat Nat Nat)
        (some 1) = .ok ⟨.RUNNING, some 0, some 1, some 0, some 0⟩ ∧
    set_message_spawner
        (⟨.RUNNING, some 0, some 0, some 0, some 0⟩ : Manager Nat Nat Nat Nat)
        (some 1) = .ok ⟨.RUNNING, some 0, some 0, some 1, some 0⟩ ∧
    set_target_spawner
        (⟨.PAUSED, some 0, some 0, some 0, some 0⟩ : Manager Nat Nat Nat Nat)
        (some 1) = .ok ⟨.PAUSED, some 0, some 0, some 0, some 1⟩ := by
  exact ⟨rfl, rfl, rfl, rfl, rfl⟩

end Chronos

namespace Chronos.StepTrace

/-- C2 counterexample: in the trace of one iteration of the worker main
loop over a grid with a single node and no collision pairs,
on_simulation_step_end is called twice on that node (once by phase 4 of
_simulate_step and once by the loop itself), not exactly once. -/
theorem stepEnd_called_twice_not_once :
    (loopBodyEvents [] [0]).count (.stepEnd 0) = 2 ∧
      (loopBodyEvents [] [0]).count (.stepEnd 0) ≠ 1 := by
  constructor <;> decide

end Chronos.StepTrace

namespace Chronos.SprayWait

/-- C3 counterexample: a Spray-and-Wait sender holding the single message
object at store reference 0 offers it to an empty receiver through the
fallback simple exchange. Afterwards both nodes hold reference 0 — the
receiver stored the very object the sender keeps, not a copy — and the hop
increment performed by the worker on the handed-over list changed the hops
of the message as seen by both holders from 0 to 1. -/
theorem exchange_shares_message_state :
    heldRefs (simpleExchange [⟨"m0", 0⟩] ⟨"a", [("c", [(0, 1)])], []⟩
        ⟨"b", [], []⟩).2.1 = [0] ∧
    heldRefs (simpleExchange [⟨"m0", 0⟩] ⟨"a", [("c", [(0, 1)])], []⟩
        ⟨"b", [], []⟩).2.2 = [0] ∧
    (getMsg (simpleExchange [⟨"m0", 0⟩] ⟨"a", [("c", [(0, 1)])], []⟩
        ⟨"b", [], []⟩).1 0).hops = 1 ∧
    (getMsg [⟨"m0", 0⟩] 0).hops = 0 := by
  exact ⟨rfl, rfl, rfl, rfl⟩

/-- C4 counterexample: a Spray-and-Wait node that receives the message with
id "m" from sender "a" and later receives the same message from the same
sender again ends up storing it with copy count 2, not 1. -/
theorem duplicate_receive_increments_count :
    senderCount [⟨"m", 0⟩]
        (receive_message [⟨"m", 0⟩]
          (receive_message [⟨"m", 0⟩] ⟨"b", [], []⟩ [0] "a") [0] "a").messages
        "a" "m" = 2 := by
  rfl

end Chronos.SprayWait

namespace Chronos.SprayLimited

/-- C5 counterexample: a Spray-and-Wait-Limited node with max_ttl = 2 and an
empty buffer receives three distinct messages in one call; since
receive_message consults only the is_full flag (which is still false) and
never re-checks the buffer size, all three are stored and the buffer size 3
exceeds max_ttl = 2. -/
theorem receive_exceeds_max_ttl :
    (receive_message ⟨[], 2, 0, false, []⟩ ["a", "b", "c"]).buffer.length = 3 ∧
      ¬ ((receive_message ⟨[], 2, 0, false, []⟩ ["a", "b", "c"]).buffer.length ≤ 2) := by
  constructor <;> decide

end Chronos.SprayLimited

namespace Chronos.CreateSims

/-- Keyword binding at the SimulationWorker construction site fails on the
first keyword, pickled_node_type, which is not a parameter of
SimulationWorker.__init__. -/
theorem bindKwargs_create_fails :
    bindKwargs workerParams createCallKwargs =
      .error (.unexpectedKeyword "pickled_node_type") := rfl

/-- The creation loop raises at its first iteration, before any entry is
registered. -/
theorem createLoop_type_error (k : Nat) (sims : List Nat) :
    createLoop (k + 1) sims =
      .error (.typeError (.unexpectedKeyword "pickled_node_type")) := by
  simp [createLoop, bindKwargs_create_fails]

/-- C10: whenever grid, node and message spawner are configured, the status
is Empty, and at least one simulation instance is requested,
create_simulations raises a TypeError while constructing the first
SimulationWorker (the call passes keywords pickled_node_type and
pickled_grid_type that __init__ does not accept and omits sim_data), and
the simulations registry is left exactly as it was. -/
theorem create_simulations_type_error (s : CreateState)
    (hg : s.gridSet = true) (hn : s.nodeSet = true) (hs : s.spawnerSet = true)
    (hst : s.status = SimulationState.Empty) (hk : 1 ≤ s.num_simulations) :
    (create_simulations s).1 =
        .error (.typeError (.unexpectedKeyword "pickled_node_type")) ∧
      (create_simulations s).2 = s.simulations := by
  obtain ⟨k, hk2⟩ : ∃ k, s.num_simulations = k + 1 :=
    ⟨s.num_simulations - 1, by omega⟩
  have hloop := createLoop_type_error k s.simulations
  rw [← hk2] at hloop
  simp [create_simulations, hg, hn, hs, hst, hloop]

/-- C10 witness: the theorem applied to a fully configured empty manager
requesting one simulation. -/
theorem create_simulations_type_error_witness :
    (create_simulations ⟨true, true, true, SimulationState.Empty, 1, []⟩).1 =
      .error (.typeError (.unexpectedKeyword "pickled_node_type")) :=
  (create_simulations_type_error ⟨true, true, true, SimulationState.Empty, 1, []⟩
    rfl rfl rfl rfl (by decide)).1

end Chronos.CreateSims

namespace Chronos.Worker

/-- Control handling never changes the step counter or the configured step
count. -/
theorem handleControl_counters {s t : WState} (h : handleControl s = some t) :
    t.step = s.step ∧ t.step_count = s.step_count := by
  unfold handleControl at h
  rcases hq : s.queue with _ | ⟨c, rest⟩ <;> rw [hq] at h
  · cases h
    exact ⟨rfl, rfl⟩
  · cases c
    · cases h
      exact ⟨rfl, rfl⟩
    · rcases rest with _ | ⟨c2, rest2⟩ <;> simp at h
      split at h <;> cases h <;> exact ⟨rfl, rfl⟩
    · cases h
      exact ⟨rfl, rfl⟩

/-- One loop iteration advances the step counter by exactly one. -/
theorem loopIter_counters {s t : WState} (h : loopIter s = some t) :
    t.step = s.step + 1 ∧ t.step_count = s.step_count := by
  unfold loopIter at h
  rcases hc : handleControl s with _ | u <;> rw [hc] at h <;> cases h
  have := handleControl_counters hc
  exact ⟨by simp [this.1], this.2⟩

/-- When the fueled loop returns, and the fuel was the exact iteration
count, the step counter has reached step_count. -/
theorem simulateFuel_exits :
    ∀ (fuel : Nat) (s t : WState), s.step_count - s.step = fuel →
      s.step ≤ s.step_count → simulateFuel fuel s = some t →
      t.step = t.step_count
  | 0, s, t, hf, hle, h => by
    cases h
    omega
  | fuel + 1, s, t, hf, hle, h => by
    unfold simulateFuel at h
    split at h
    · rcases hl : loopIter s with _ | u <;> rw [hl] at h
      · cases h
      · have hu := loopIter_counters hl
        exact simulateFuel_exits fuel u t (by omega) (by omega) h
    · cases h
      omega

/-- C9: the worker step loop exits only by exhausting the step counter, and
a stop command that follows a pause command leaves the worker status equal
to "running" with the step counter advancing. First part: whenever
simulate returns (it may also block forever waiting for a control command),
the final step equals step_count, for any contents of the control channel.
Second part: an iteration that reads pause and then blocks until the stop
command completes normally with status "running". -/
theorem simulate_ignores_stop :
    (∀ s t : WState, s.step ≤ s.step_count → simulate s = some t →
      t.step = t.step_count) ∧
    (∀ (s : WState) (rest : List Command),
      s.queue = Command.pause :: Command.stop :: rest →
      loopIter s = some ⟨s.step + 1, s.step_count, "running", rest⟩) := by
  constructor
  · intro s t hle h
    exact simulateFuel_exits (s.step_count - s.step) s t rfl hle h
  · intro s rest hq
    simp [loopIter, handleControl, hq]

/-- C9 witness: a worker one step short of completion with an empty queue
finishes at its step count, and a worker reading pause then stop resumes
with status "running". -/
theorem simulate_ignores_stop_witness :
    (⟨1, 1, "stop", []⟩ : WState).step = (⟨1, 1, "stop", []⟩ : WState).step_count ∧
      loopIter ⟨0, 5, "stop", [Command.pause, Command.stop]⟩ =
        some ⟨1, 5, "running", []⟩ :=
  ⟨simulate_ignores_stop.1 ⟨0, 1, "stop", []⟩ ⟨1, 1, "stop", []⟩ (by decide) rfl,
    simulate_ignores_stop.2 ⟨0, 5, "stop", [Command.pause, Command.stop]⟩ [] rfl⟩

end Chronos.Worker

namespace Chronos.SprayWait

/-- Folding one incoming reference into a sender slot adds exactly one to
the stored count of its message id and leaves other ids untouched. -/
theorem countFor_addRef (store : Store) (l : List (Nat × Nat)) (r : Nat)
    (mid : String) :
    countFor store (addRef store l r) mid =
      countFor store l mid + (if (getMsg store r).id = mid then 1 else 0) := by
  induction l with
  | nil => simp [addRef, countFor]
  | cons e rest ih =>
    by_cases h : (getMsg store e.1).id = (getMsg store r).id
    · simp only [addRef, if_pos h, countFor]
      rw [h]
      split_ifs <;> omega
    · simp only [addRef, if_neg h, countFor, ih]
      omega

/-- Rewriting a sender slot rewrites exactly the entry find? retrieves. -/
theorem find_updateSender (buf : List (String × List (Nat × Nat)))
    (sid : String) (f : List (Nat × Nat) → List (Nat × Nat)) :
    (updateSender buf sid f).find? (fun e => e.1 == sid) =
      (buf.find? (fun e => e.1 == sid)).map (fun e => (e.1, f e.2)) := by
  induction buf with
  | nil => simp [updateSender]
  | cons e rest ih =>
    by_cases h : e.1 = sid
    · simp [updateSender, h]
    · simp [updateSender, h, ih]

/-- Ensuring the sender slot does not change any stored count. -/
theorem senderCount_ensureSender (store : Store)
    (buf : List (String × List (Nat × Nat))) (sid mid : String) :
    senderCount store (ensureSender buf sid) sid mid =
      senderCount store buf sid mid := by
  by_cases h : buf.any (fun e => e.1 == sid)
  · simp [ensureSender, h]
  · have hfind : buf.find? (fun e => e.1 == sid) = none := by
      rcases hf : buf.find? (fun e => e.1 == sid) with _ | e
      · exact hf
      · exact absurd (List.any_eq_true.mpr
          ⟨e, List.mem_of_find?_eq_some hf, List.find?_some hf⟩) h
    simp [ensureSender, h, senderCount, List.find?_append, hfind, countFor]

/-- The sender slot stays present across an updateSender rewrite, and its
count moves by the count delta of the rewrite. -/
theorem senderCount_fold (store : Store) (sid mid : String) :
    ∀ (msgs : List Nat) (buf : List (String × List (Nat × Nat))),
      (buf.find? (fun e => e.1 == sid)).isSome = true →
      senderCount store
          (msgs.foldl (fun b r => updateSender b sid (fun l => addRef store l r)) buf)
          sid mid =
        senderCount store buf sid mid +
          msgs.countP (fun r => (getMsg store r).id == mid)
  | [], buf, _ => by simp [List.countP_nil]
  | r :: rest, buf, hsome => by
    rcases hf : buf.find? (fun e => e.1 == sid) with _ | e
    · rw [hf] at hsome
      cases hsome
    · have hstep : senderCount store
          (updateSender buf sid (fun l => addRef store l r)) sid mid =
          senderCount store buf sid mid +
            (if (getMsg store r).id = mid then 1 else 0) := by
        simp [senderCount, find_updateSender, hf, countFor_addRef]
      have hsome2 : ((updateSender buf sid (fun l => addRef store l r)).find?
          (fun e => e.1 == sid)).isSome = true := by
        simp [find_updateSender, hf]
      have ih := senderCount_fold store sid mid rest
        (updateSender buf sid (fun l => addRef store l r)) hsome2
      simp only [List.foldl_cons, ih, hstep, List.countP_cons]
      have : (((getMsg store r).id == mid) = true) ↔ (getMsg store r).id = mid := by
        simp
      split_ifs <;> first | omega | simp_all

/-- C4 (amended): after SprayAndWaitNode.receive_message processes a list of
incoming messages from a sender, the copy count stored for a message id in
that sender slot equals its previous count plus the number of received
occurrences of that id: a first receipt is appended with count 1, and a
receipt whose id is already present in the same sender slot increments the
existing count instead of storing it with count 1. -/
theorem receive_message_counts (store : Store) (node : SWNode)
    (msgs : List Nat) (sid mid : String) :
    senderCount store (receive_message store node msgs sid).messages sid mid =
      senderCount store node.messages sid mid +
        msgs.countP (fun r => (getMsg store r).id == mid) := by
  have hsome : ((ensureSender node.messages sid).find?
      (fun e => e.1 == sid)).isSome = true := by
    by_cases h : node.messages.any (fun e => e.1 == sid)
    · obtain ⟨e, he, hpe⟩ := List.any_eq_true.mp h
      simp only [ensureSender, h, if_pos]
      exact List.find?_isSome.mpr ⟨e, he, hpe⟩
    · simp only [ensureSender, h, if_neg, Bool.false_eq_true, not_false_iff]
      exact List.find?_isSome.mpr ⟨(sid, []), by simp⟩
  simp only [receive_message, senderCount_fold store sid mid msgs _ hsome,
    senderCount_ensureSender]

end Chronos.SprayWait

namespace Chronos.SprayLimited

/-- C5 (amended): the capacity gate of SprayAndWaitLimitedNode is the
is_full flag, not the buffer size. While is_full is set, receive_message
and on_message_create add nothing to the buffer; receive_message never
writes the flag, and on_message_create raises it exactly when the buffer
it produced has reached max_ttl entries — so only creation enforces the
bound, and a buffer filled through receive_message can exceed max_ttl. -/
theorem capacity_gate_is_flag (n : LimNode) (msgs : List String) (mid : String) :
    (n.is_full = true →
      (receive_message n msgs).buffer = n.buffer ∧
        (on_message_create n mid).buffer = n.buffer) ∧
    (receive_message n msgs).is_full = n.is_full ∧
    ((on_message_create n mid).is_full = true ↔
      n.is_full = true ∨ n.max_ttl ≤ (on_message_create n mid).buffer.length) := by
  refine ⟨fun hfull => ⟨?_, ?_⟩, ?_, ?_⟩
  · have : ∀ (l : List String) (b : List LimEntry),
        l.foldl (fun b mid => if n.is_full then b else limInsert b mid (n.max_ttl : Int)) b = b := by
      intro l
      induction l with
      | nil => intro b; rfl
      | cons x xs ih => intro b; simp [hfull, ih]
    simp [receive_message, this]
  · simp [on_message_create, hfull]
  · simp [receive_message]
  · rcases hfull : n.is_full with _ | _
    · simp only [on_message_create, hfull, Bool.false_eq_true, if_neg, not_false_iff]
      split_ifs with hlen
      · simp [hlen]
      · simp [hlen, hfull]
    · simp [on_message_create, hfull]

/-- C5 witness: a full node (max_ttl 2, two held messages, flag set)
refuses both an incoming message and a created message. -/
theorem capacity_gate_is_flag_witness :
    (receive_message ⟨[⟨"a", 1, 5⟩, ⟨"b", 1, 5⟩], 2, 0, true, []⟩ ["c"]).buffer =
        [⟨"a", 1, 5⟩, ⟨"b", 1, 5⟩] ∧
      (on_message_create ⟨[⟨"a", 1, 5⟩, ⟨"b", 1, 5⟩], 2, 0, true, []⟩ "d").buffer =
        [⟨"a", 1, 5⟩, ⟨"b", 1, 5⟩] :=
  (capacity_gate_is_flag ⟨[⟨"a", 1, 5⟩, ⟨"b", 1, 5⟩], 2, 0, true, []⟩ ["c"] "d").1 rfl

end Chronos.SprayLimited

namespace Chronos.SprayWait

/-- Bumping the hops behind a valid reference increments that message's hop
counter and preserves its id. -/
theorem getMsg_bumpHops :
    ∀ (store : Store) (r : Nat), r < store.length →
      getMsg (bumpHops store r) r =
        { getMsg store r with hops := (getMsg store r).hops + 1 }
  | [], r, h => by simp at h
  | m :: rest, 0, _ => by simp [bumpHops, getMsg]
  | m :: rest, r + 1, h => by
    simp only [bumpHops, getMsg, List.getD_cons_succ]
    exact getMsg_bumpHops rest r (by simpa using h)

/-- C3 (amended): in the fallback simple exchange, a Spray-and-Wait sender
offers its first held message without removing it and the receiver stores
the very same store reference (receive_message copies nothing), so after
the exchange both nodes hold the same mutable message object; the hop
increment the worker then performs on the handed-over list is visible
through both nodes, raising the shared hops field by one. -/
theorem exchange_stores_shared_reference (store : Store) (a b : SWNode)
    (k : String) (r c : Nat) (es : List (Nat × Nat))
    (rest : List (String × List (Nat × Nat)))
    (hbuf : a.messages = (k, (r, c) :: es) :: rest)
    (hrec : b.id ∉ a.recent_senders)
    (hb : b.messages = [])
    (hr : r < store.length) :
    r ∈ heldRefs (simpleExchange store a b).2.1 ∧
    r ∈ heldRefs (simpleExchange store a b).2.2 ∧
    (getMsg (simpleExchange store a b).1 r).hops = (getMsg store r).hops + 1 ∧
    (getMsg (simpleExchange store a b).1 r).id = (getMsg store r).id := by
  have hsend : send_message a b.id = some [r] := by
    simp [send_message, hrec, hbuf, firstRef]
  have hrecv : (receive_message store b [r] a.id).messages =
      [(a.id, [(r, 1)])] := by
    simp [receive_message, hb, ensureSender, updateSender, addRef]
  have hx : simpleExchange store a b =
      (increment_hops store [r], a, receive_message store b [r] a.id) := by
    simp [simpleExchange, hsend]
  rw [hx]
  refine ⟨?_, ?_, ?_, ?_⟩
  · simp [heldRefs, hbuf, List.mem_flatten]
  · simp [heldRefs, hrecv]
  · simp [increment_hops, getMsg_bumpHops store r hr]
  · simp [increment_hops, getMsg_bumpHops store r hr]

/-- C3 witness: the amended theorem applied to a sender holding the single
message at store reference 0 and an empty receiver. -/
theorem exchange_stores_shared_reference_witness :
    0 ∈ heldRefs (simpleExchange [⟨"m0", 0⟩] ⟨"a", [("c", [(0, 1)])], []⟩
        ⟨"b", [], []⟩).2.1 ∧
      0 ∈ heldRefs (simpleExchange [⟨"m0", 0⟩] ⟨"a", [("c", [(0, 1)])], []⟩
        ⟨"b", [], []⟩).2.2 ∧
      (getMsg (simpleExchange [⟨"m0", 0⟩] ⟨"a", [("c", [(0, 1)])], []⟩
        ⟨"b", [], []⟩).1 0).hops = (getMsg [⟨"m0", 0⟩] 0).hops + 1 ∧
      (getMsg (simpleExchange [⟨"m0", 0⟩] ⟨"a", [("c", [(0, 1)])], []⟩
        ⟨"b", [], []⟩).1 0).id = (getMsg [⟨"m0", 0⟩] 0).id :=
  exchange_stores_shared_reference [⟨"m0", 0⟩] ⟨"a", [("c", [(0, 1)])], []⟩
    ⟨"b", [], []⟩ "c" 0 1 [] [] rfl (by decide) rfl (by decide)

end Chronos.SprayWait

namespace Chronos.SprayFocus

theorem calculate_utility_buffer (x : FNode) (b : List (String × Nat)) (rid : String) :
    calculate_utility { x with buffer := b } rid = calculate_utility x rid := rfl

theorem lookupN_cons_self (m : String) (c : Nat) (rest : List (String × Nat)) :
    lookupN ((m, c) :: rest) m = c := by
  simp [lookupN]

theorem send_first_spray (n : FNode) (rid m : String) (c : Nat)
    (rest : List (String × Nat))
    (hstrat : n.message_selection_strategy = "First")
    (hrec : rid ∉ n.recent_senders)
    (hbuf : n.buffer = (m, c) :: rest)
    (hc : 1 < c) :
    send_message n rid =
      (some (List.replicate (c / 2) m),
        { encounterUpdate n rid with buffer := (m, c - c / 2) :: rest }) := by
  have hne : n.buffer.isEmpty = false := by rw [hbuf]; rfl
  have hdiv : c / 2 ≠ 0 := by omega
  rw [send_message, if_neg hrec]
  rw [hne]
  simp only [Bool.false_eq_true, if_false]
  have hb1 : (encounterUpdate n rid).buffer = (m, c) :: rest := hbuf
  have hs1 : (encounterUpdate n rid).message_selection_strategy = "First" := hstrat
  simp only [hb1, hs1, if_pos, List.take, List.map, List.foldl_cons, List.foldl_nil,
    lookupN_cons_self, if_pos hc, setN, if_pos rfl]
  simp only [List.nil_append, if_true, reduceIte]
  rw [if_neg]
  simp [List.isEmpty_iff, List.replicate_eq_nil_iff, hdiv]

end Chronos.SprayFocus

namespace Chronos.SprayFocus

theorem send_first_focus_send (n : FNode) (rid m : String) (c : Nat)
    (rest : List (String × Nat))
    (hstrat : n.message_selection_strategy = "First")
    (hrec : rid ∉ n.recent_senders)
    (hbuf : n.buffer = (m, c) :: rest)
    (hc : ¬ 1 < c)
    (hu : n.utility_threshold ≤ calculate_utility (encounterUpdate n rid) rid) :
    send_message n rid =
      (some [m], { encounterUpdate n rid with buffer := (m, 0) :: rest }) := by
  have hne : n.buffer.isEmpty = false := by rw [hbuf]; rfl
  rw [send_message, if_neg hrec]
  rw [hne]
  simp only [Bool.false_eq_true, if_false]
  have hb1 : (encounterUpdate n rid).buffer = (m, c) :: rest := hbuf
  have hs1 : (encounterUpdate n rid).message_selection_strategy = "First" := hstrat
  have ht1 : (encounterUpdate n rid).utility_threshold = n.utility_threshold := rfl
  simp only [hb1, hs1, ht1, if_pos, List.take, List.map, List.foldl_cons, List.foldl_nil,
    lookupN_cons_self, if_neg hc, if_pos hu, setN, if_pos rfl]
  simp [reduceIte]

theorem send_first_focus_hold (n : FNode) (rid m : String) (c : Nat)
    (rest : List (String × Nat))
    (hstrat : n.message_selection_strategy = "First")
    (hrec : rid ∉ n.recent_senders)
    (hbuf : n.buffer = (m, c) :: rest)
    (hc : ¬ 1 < c)
    (hu : calculate_utility (encounterUpdate n rid) rid < n.utility_threshold) :
    send_message n rid =
      (none, { encounterUpdate n rid with buffer := (m, c) :: rest }) := by
  have hne : n.buffer.isEmpty = false := by rw [hbuf]; rfl
  rw [send_message, if_neg hrec]
  rw [hne]
  simp only [Bool.false_eq_true, if_false]
  have hb1 : (encounterUpdate n rid).buffer = (m, c) :: rest := hbuf
  have hs1 : (encounterUpdate n rid).message_selection_strategy = "First" := hstrat
  have ht1 : (encounterUpdate n rid).utility_threshold = n.utility_threshold := rfl
  simp only [hb1, hs1, ht1, if_pos, List.take, List.map, List.foldl_cons, List.foldl_nil,
    lookupN_cons_self, if_neg hc, if_neg (not_le.mpr hu), setN, if_pos rfl]
  simp [reduceIte]

end Chronos.SprayFocus

namespace Chronos.SprayFocus

/-- C7: Spray-and-Focus forwarding with the default "First" strategy, for a
candidate message of copy count c. When c > 1 the node sends c / 2 copies
and retains c - c / 2 (copy_count 4 yields 2 sent, 2 retained); when c = 1
the message is forwarded exactly when the utility of the peer is at least
the utility threshold, where the utility used is the one of the
post-encounter state returned by send_message, and calculate_utility
computes it as encounter_count over (time since last encounter + 1),
clamped from above by 1 (last conjunct). -/
theorem send_message_spray_and_focus (n : FNode) (rid m : String) (c : Nat)
    (rest : List (String × Nat))
    (hstrat : n.message_selection_strategy = "First")
    (hrec : rid ∉ n.recent_senders)
    (hbuf : n.buffer = (m, c) :: rest) :
    (1 < c →
      (send_message n rid).1 = some (List.replicate (c / 2) m) ∧
        lookupN (send_message n rid).2.buffer m = c - c / 2) ∧
    (c = 1 →
      (n.utility_threshold ≤ calculate_utility (send_message n rid).2 rid →
        (send_message n rid).1 = some [m] ∧
          lookupN (send_message n rid).2.buffer m = 0) ∧
      (calculate_utility (send_message n rid).2 rid < n.utility_threshold →
        (send_message n rid).1 = none ∧
          lookupN (send_message n rid).2.buffer m = 1)) ∧
    (∀ (s : FNode) (nid : String),
      (s.encounter_counts.any (fun e => e.1 == nid)) = true →
      calculate_utility s nid =
        min 1 ((lookupN s.encounter_counts nid : ℚ) /
          (s.current_time - lookupQ s.last_encounter_times nid + 1))) := by
  refine ⟨?_, ?_, ?_⟩
  · intro hc
    rw [send_first_spray n rid m c rest hstrat hrec hbuf hc]
    exact ⟨rfl, lookupN_cons_self m (c - c / 2) rest⟩
  · intro hc1
    have hc : ¬ 1 < c := by omega
    constructor
    · intro hupost
      by_cases hu : n.utility_threshold ≤ calculate_utility (encounterUpdate n rid) rid
      · rw [send_first_focus_send n rid m c rest hstrat hrec hbuf hc hu]
        exact ⟨rfl, lookupN_cons_self m 0 rest⟩
      · rw [send_first_focus_hold n rid m c rest hstrat hrec hbuf hc (not_le.mp hu)] at hupost
        exact absurd hupost hu
    · intro hupost
      by_cases hu : n.utility_threshold ≤ calculate_utility (encounterUpdate n rid) rid
      · rw [send_first_focus_send n rid m c rest hstrat hrec hbuf hc hu] at hupost
        exact absurd hu (not_le.mpr hupost)
      · rw [send_first_focus_hold n rid m c rest hstrat hrec hbuf hc (not_le.mp hu)]
        exact ⟨rfl, by rw [lookupN_cons_self, hc1]⟩
  · intro s nid h
    simp [calculate_utility, h]

/-- C7 witness: a node holding ("m", 4) sprays two copies to a fresh peer
and keeps two, and with a single copy and utility 1 at least the threshold
1/2, the message is forwarded. -/
theorem send_message_spray_and_focus_witness :
    ((send_message ⟨[("m", 4)], [], [], 0, 1/2, "First", []⟩ "p").1 =
        some (List.replicate (4 / 2) "m") ∧
      lookupN (send_message ⟨[("m", 4)], [], [], 0, 1/2, "First", []⟩ "p").2.buffer
        "m" = 4 - 4 / 2) ∧
    ((send_message ⟨[("m", 1)], [], [], 0, 1/2, "First", []⟩ "p").1 = some ["m"] ∧
      lookupN (send_message ⟨[("m", 1)], [], [], 0, 1/2, "First", []⟩ "p").2.buffer
        "m" = 0) :=
  ⟨(send_message_spray_and_focus ⟨[("m", 4)], [], [], 0, 1/2, "First", []⟩
      "p" "m" 4 [] rfl (by decide) rfl).1 (by decide),
    ((send_message_spray_and_focus ⟨[("m", 1)], [], [], 0, 1/2, "First", []⟩
      "p" "m" 1 [] rfl (by decide) rfl).2.1 rfl).1 (by
        rw [send_first_focus_send ⟨[("m", 1)], [], [], 0, 1/2, "First", []⟩
          "p" "m" 1 [] rfl (by decide) rfl (by omega) (by
            norm_num [calculate_utility, encounterUpdate, lookupN, lookupQ,
              setQ, addN, setN])]
        norm_num [calculate_utility, encounterUpdate, lookupN, lookupQ,
          setQ, addN, setN])⟩

end Chronos.SprayFocus

namespace Chronos.Grid

/-- Folding blockwise appends starting from an accumulator produces the
accumulator followed by the flattened blocks. -/
theorem foldl_append_eq {α β : Type} (f : β → List α) :
    ∀ (l : List β) (init : List α),
      l.foldl (fun acc b => acc ++ f b) init = init ++ (l.map f).flatten
  | [], init => by simp
  | b :: bs, init => by
    simp [foldl_append_eq f bs (init ++ f b), List.append_assoc]

/-- C8: detect_collision never returns the querying node, and a node is
returned exactly when it lies in one of the (at most nine) neighbor regions
of the querying node's region clipped to the grid bounds, is a different
node, and is within the querying node's own detection range (Euclidean
distance compared on squares; the other node's range plays no role). -/
theorem detect_collision_characterization (g : SGrid) (n : GNode) :
    n ∉ detect_collision g n ∧
    (∀ m : GNode, m ∈ detect_collision g n ↔
      ∃ reg ∈ get_neighbors g (get_region g n.pos.1 n.pos.2),
        m ∈ regionNodes g reg ∧ m.id ≠ n.id ∧
          (n.pos.1 - m.pos.1) ^ 2 + (n.pos.2 - m.pos.2) ^ 2 ≤
            n.detection_range ^ 2) := by
  have hchar : ∀ m : GNode, m ∈ detect_collision g n ↔
      ∃ reg ∈ get_neighbors g (get_region g n.pos.1 n.pos.2),
        m ∈ regionNodes g reg ∧ m.id ≠ n.id ∧
          (n.pos.1 - m.pos.1) ^ 2 + (n.pos.2 - m.pos.2) ^ 2 ≤
            n.detection_range ^ 2 := by
    intro m
    unfold detect_collision
    rw [foldl_append_eq]
    simp only [List.nil_append, List.mem_flatten, List.mem_map]
    constructor
    · rintro ⟨l, ⟨reg, hreg, rfl⟩, hm⟩
      rw [List.mem_filter] at hm
      refine ⟨reg, hreg, hm.1, ?_, ?_⟩
      · have := hm.2
        simp [within_range] at this
        exact this.1
      · have := hm.2
        simp [within_range] at this
        exact this.2
    · rintro ⟨reg, hreg, hmem, hid, hdist⟩
      refine ⟨_, ⟨reg, hreg, rfl⟩, ?_⟩
      rw [List.mem_filter]
      exact ⟨hmem, by simp [within_range, hid, hdist]⟩
  refine ⟨fun habs => ?_, hchar⟩
  obtain ⟨_, _, _, hid, _⟩ := (hchar n).mp habs
  exact hid rfl

end Chronos.Grid

namespace Chronos.Epidemic

/-- The running fold of Nat.min never exceeds its initial value. -/
theorem foldl_min_le_init :
    ∀ (l : List (String × Nat)) (a : Nat),
      l.foldl (fun acc x => Nat.min acc x.2) a ≤ a
  | [], a => le_refl a
  | x :: xs, a => le_trans (foldl_min_le_init xs (Nat.min a x.2)) (Nat.min_le_left a x.2)

/-- The running fold of Nat.min is below every listed time. -/
theorem foldl_min_le_mem :
    ∀ (l : List (String × Nat)) (a : Nat) (e : String × Nat), e ∈ l →
      l.foldl (fun acc x => Nat.min acc x.2) a ≤ e.2
  | x :: xs, a, e, he => by
    rcases List.mem_cons.mp he with rfl | he2
    · exact le_trans (foldl_min_le_init xs (Nat.min a e.2)) (Nat.min_le_right a e.2)
    · exact foldl_min_le_mem xs (Nat.min a x.2) e he2

/-- minSeen is a lower bound of all first-seen times in the buffer, so the
entry manage_buffer deletes carries the oldest first-seen time. -/
theorem minSeen_le (buf : List (String × Nat)) (e : String × Nat) (he : e ∈ buf) :
    minSeen buf ≤ e.2 := by
  cases buf with
  | nil => cases he
  | cons b rest =>
    rcases List.mem_cons.mp he with rfl | he2
    · exact foldl_min_le_init rest e.2
    · exact foldl_min_le_mem rest b.2 e he2

/-- The running fold of Nat.min is attained by the initial value or by some
listed time. -/
theorem foldl_min_attained :
    ∀ (l : List (String × Nat)) (a : Nat),
      l.foldl (fun acc x => Nat.min acc x.2) a = a ∨
        ∃ e ∈ l, l.foldl (fun acc x => Nat.min acc x.2) a = e.2
  | [], a => Or.inl rfl
  | x :: xs, a => by
    rcases foldl_min_attained xs (Nat.min a x.2) with h | ⟨e, he, h⟩
    · by_cases hm : a ≤ x.2
      · left
        rw [List.foldl_cons]
        simp only [Nat.min] at h ⊢
        rw [inf_eq_left.mpr hm] at h ⊢
        exact h
      · right
        refine ⟨x, List.mem_cons_self x xs, ?_⟩
        rw [List.foldl_cons]
        simp only [Nat.min] at h ⊢
        rw [inf_eq_right.mpr (le_of_not_le hm)] at h ⊢
        exact h
    · right
      exact ⟨e, List.mem_cons_of_mem x he, by rw [List.foldl_cons]; exact h⟩

/-- A non-empty buffer contains an entry carrying the minimal time. -/
theorem minSeen_attained (buf : List (String × Nat)) (h : buf ≠ []) :
    ∃ e ∈ buf, e.2 = minSeen buf := by
  cases buf with
  | nil => exact absurd rfl h
  | cons b rest =>
    rcases foldl_min_attained rest b.2 with h2 | ⟨e, he, h2⟩
    · exact ⟨b, List.mem_cons_self b rest, h2.symm⟩
    · exact ⟨e, List.mem_cons_of_mem b he, h2.symm⟩

/-- One eviction removes exactly one entry from a non-empty buffer. -/
theorem removeOldest_length (buf : List (String × Nat)) (h : buf ≠ []) :
    (removeOldest buf).length + 1 = buf.length := by
  obtain ⟨e, he, hmin⟩ := minSeen_attained buf h
  exact List.length_eraseP_add_one he (by simp [hmin])

/-- The eviction loop does nothing on a buffer within capacity. -/
theorem manageFuel_noop (fuel cap : Nat) (buf : List (String × Nat))
    (h : ¬ cap < buf.length) : manageFuel fuel cap buf = buf := by
  cases fuel with
  | zero => rfl
  | succ f => simp [manageFuel, h]

/-- With enough fuel the eviction loop drives the buffer within capacity. -/
theorem manageFuel_le :
    ∀ (fuel cap : Nat) (buf : List (String × Nat)),
      buf.length ≤ cap + fuel → (manageFuel fuel cap buf).length ≤ cap
  | 0, cap, buf, h => by simpa [manageFuel] using h
  | fuel + 1, cap, buf, h => by
    by_cases hlt : cap < buf.length
    · have hne : buf ≠ [] := by
        intro habs
        rw [habs] at hlt
        exact absurd hlt (by simp)
      have hlen := removeOldest_length buf hne
      simp only [manageFuel, if_pos hlt]
      exact manageFuel_le fuel cap (removeOldest buf) (by omega)
    · simpa [manageFuel, hlt] using Nat.not_lt.mp hlt

/-- manage_buffer always returns a buffer within capacity. -/
theorem manage_buffer_le (cap : Nat) (buf : List (String × Nat)) :
    (manage_buffer cap buf).length ≤ cap :=
  manageFuel_le buf.length cap buf (by omega)

/-- manage_buffer does nothing on a buffer within capacity. -/
theorem manage_buffer_noop (cap : Nat) (buf : List (String × Nat))
    (h : buf.length ≤ cap) : manage_buffer cap buf = buf :=
  manageFuel_noop buf.length cap buf (Nat.not_lt.mpr h)

end Chronos.Epidemic

namespace Chronos.Epidemic

/-- timeStamped preserves length. -/
theorem timeStamped_length : ∀ (ids : List String) (t : Nat),
    (timeStamped ids t).length = ids.length
  | [], _ => rfl
  | _ :: rest, t => by simp [timeStamped, timeStamped_length rest (t + 1)]

/-- timeStamped distributes over append, shifting the start time. -/
theorem timeStamped_append : ∀ (xs ys : List String) (t : Nat),
    timeStamped (xs ++ ys) t = timeStamped xs t ++ timeStamped ys (t + xs.length)
  | [], ys, t => by simp [timeStamped]
  | x :: xs, ys, t => by
    show (x, t) :: timeStamped (xs ++ ys) (t + 1) =
      ((x, t) :: timeStamped xs (t + 1)) ++ timeStamped ys (t + (x :: xs).length)
    rw [timeStamped_append xs ys (t + 1)]
    simp only [List.cons_append, List.length_cons, List.cons.injEq, true_and]
    have h : t + 1 + xs.length = t + (xs.length + 1) := by omega
    rw [h]

/-- Every time in a timeStamped list is at least the start time. -/
theorem timeStamped_snd_ge : ∀ (ids : List String) (t : Nat) (e : String × Nat),
    e ∈ timeStamped ids t → t ≤ e.2
  | mid :: rest, t, e, he => by
    rcases List.mem_cons.mp he with rfl | he2
    · exact le_refl t
    · exact le_trans (Nat.le_succ t) (timeStamped_snd_ge rest (t + 1) e he2)

/-- Folding Nat.min over times that never go below the accumulator keeps
the accumulator. -/
theorem foldl_min_const : ∀ (l : List (String × Nat)) (a : Nat),
    (∀ e ∈ l, a ≤ e.2) → l.foldl (fun acc x => Nat.min acc x.2) a = a
  | [], _, _ => rfl
  | x :: xs, a, h => by
    rw [List.foldl_cons]
    have hmin : Nat.min a x.2 = a :=
      min_eq_left (h x (List.mem_cons_self x xs))
    rw [hmin]
    exact foldl_min_const xs a (fun e he => h e (List.mem_cons_of_mem x he))

/-- The minimal time of a consecutively stamped buffer is its start time. -/
theorem minSeen_timeStamped (mid : String) (ids : List String) (t : Nat) :
    minSeen (timeStamped (mid :: ids) t) = t := by
  simp only [timeStamped, minSeen]
  exact foldl_min_const (timeStamped ids (t + 1)) t
    (fun e he => le_trans (Nat.le_succ t) (timeStamped_snd_ge ids (t + 1) e he))

/-- Evicting from a consecutively stamped buffer removes its head, the
entry with the oldest first-seen time. -/
theorem removeOldest_timeStamped (mid : String) (ids : List String) (t : Nat) :
    removeOldest (timeStamped (mid :: ids) t) = timeStamped ids (t + 1) := by
  rw [removeOldest, minSeen_timeStamped]
  simp only [timeStamped]
  rw [List.eraseP_cons_of_pos]
  simp

/-- createSeq processes an appended list in two stages. -/
theorem createSeq_append : ∀ (xs ys : List String) (n : ENode),
    createSeq n (xs ++ ys) = createSeq (createSeq n xs) ys
  | [], ys, n => rfl
  | x :: xs, ys, n => by
    simp only [List.cons_append, createSeq]
    exact createSeq_append xs ys _

/-- A fresh id never appears as a key of a timeStamped buffer. -/
theorem timeStamped_any_fresh : ∀ (ids : List String) (t : Nat) (mid : String),
    mid ∉ ids → (timeStamped ids t).any (fun e => e.1 == mid) = false
  | [], _, _, _ => rfl
  | x :: xs, t, mid, h => by
    simp only [timeStamped, List.any_cons, Bool.or_eq_false_iff]
    constructor
    · simp only [beq_eq_false_iff_ne, ne_eq]
      intro habs
      exact h (habs ▸ List.mem_cons_self x xs)
    · exact timeStamped_any_fresh xs (t + 1) mid (fun hm => h (List.mem_cons_of_mem x hm))

/-- While capacity is not exceeded and the created ids are fresh and
distinct, createSeq appends consecutively stamped entries and advances the
clock, with no eviction. -/
theorem createSeq_no_evict : ∀ (ids : List String) (n : ENode),
    n.buffer.length + ids.length ≤ n.buffer_size →
    (∀ mid ∈ ids, n.buffer.any (fun e => e.1 == mid) = false) →
    ids.Nodup →
    createSeq n ids =
      ⟨n.buffer ++ timeStamped ids n.current_time, n.buffer_size,
        n.current_time + ids.length⟩
  | [], n, _, _, _ => by
    cases n
    simp [createSeq, timeStamped]
  | mid :: rest, n, hlen, hfresh, hnd => by
    have hmid := hfresh mid (List.mem_cons_self mid rest)
    have hcreate : on_message_create n mid =
        { n with buffer := n.buffer ++ [(mid, n.current_time)] } := by
      simp only [on_message_create, hmid, Bool.false_eq_true, if_neg,
        not_false_iff]
      rw [manage_buffer_noop]
      simp only [List.length_append, List.length_cons, List.length_nil]
      simp only [List.length_cons] at hlen
      omega
    rw [createSeq, hcreate]
    have hstep : on_simulation_step_end
        { n with buffer := n.buffer ++ [(mid, n.current_time)] } =
        ⟨n.buffer ++ [(mid, n.current_time)], n.buffer_size,
          n.current_time + 1⟩ := rfl
    rw [hstep]
    have hmemnot : mid ∉ rest := (List.nodup_cons.mp hnd).1
    have ih := createSeq_no_evict rest
      ⟨n.buffer ++ [(mid, n.current_time)], n.buffer_size, n.current_time + 1⟩
      (by
        simp only [List.length_append, List.length_cons, List.length_nil]
        simp only [List.length_cons] at hlen
        omega)
      (by
        intro m hm
        simp only [List.any_append, Bool.or_eq_false_iff]
        refine ⟨hfresh m (List.mem_cons_of_mem mid hm), ?_⟩
        simp only [List.any_cons, List.any_nil, Bool.or_false,
          beq_eq_false_iff_ne, ne_eq]
        intro habs
        exact hmemnot (habs ▸ hm))
      (List.nodup_cons.mp hnd).2
    rw [ih]
    simp only [timeStamped, List.append_assoc, List.singleton_append,
      List.length_cons, ENode.mk.injEq]
    exact ⟨trivial, trivial, by omega⟩

end Chronos.Epidemic

namespace Chronos.Epidemic

/-- Starting from an empty epidemic buffer of capacity cap, creating cap + 1
distinct messages (one per step) leaves the entries of all but the first,
each keeping its original first-seen stamp: the single eviction removed the
entry with the oldest first-seen time. -/
theorem epidemic_scenario (cap : Nat) (ids : List String)
    (hnd : ids.Nodup) (hlen : ids.length = cap + 1) :
    (createSeq ⟨[], cap, 0⟩ ids).buffer = (timeStamped ids 0).tail ∧
    (createSeq ⟨[], cap, 0⟩ ids).buffer.length = cap := by
  rcases List.eq_nil_or_concat ids with rfl | ⟨front, lastId, rfl⟩
  · simp at hlen
  · rw [List.concat_eq_append] at hlen hnd ⊢
    have hfrontlen : front.length = cap := by
      simp only [List.length_append, List.length_cons, List.length_nil] at hlen
      omega
    have hparts := List.nodup_append.mp hnd
    have hnotmem : lastId ∉ front := by
      intro hmem
      exact hparts.2.2 hmem (List.mem_singleton.mpr rfl)
    rw [createSeq_append]
    have h1 := createSeq_no_evict front ⟨[], cap, 0⟩
      (by simp [hfrontlen]) (fun m _ => rfl) hparts.1
    rw [h1]
    simp only [List.nil_append, Nat.zero_add]
    have hcreate : on_message_create ⟨timeStamped front 0, cap, front.length⟩
        lastId =
        ⟨manage_buffer cap (timeStamped (front ++ [lastId]) 0), cap,
          front.length⟩ := by
      simp only [on_message_create, timeStamped_any_fresh front 0 lastId hnotmem,
        Bool.false_eq_true, if_neg, not_false_iff]
      rw [timeStamped_append front [lastId] 0, Nat.zero_add]
      rfl
    have hbuf2 : manage_buffer cap (timeStamped (front ++ [lastId]) 0) =
        (timeStamped (front ++ [lastId]) 0).tail := by
      rcases hconsm : front ++ [lastId] with _ | ⟨id0, restIds⟩
      · exact absurd hconsm (by simp)
      · have hlen2 : (timeStamped (id0 :: restIds) 0).length = cap + 1 := by
          rw [timeStamped_length]
          rw [hconsm] at hlen
          exact hlen
        have hrestlen : restIds.length = cap := by
          have h3 := hlen2
          simp only [timeStamped, List.length_cons, timeStamped_length] at h3
          omega
        rw [manage_buffer, hlen2]
        simp only [manageFuel, hlen2, Nat.lt_succ_self, if_pos]
        rw [removeOldest_timeStamped]
        rw [manageFuel_noop]
        · rfl
        · rw [timeStamped_length]
          omega
    rw [createSeq, createSeq, hcreate]
    simp only [on_simulation_step_end]
    constructor
    · exact hbuf2
    · rw [hbuf2]
      have : (timeStamped (front ++ [lastId]) 0).length = cap + 1 := by
        rw [timeStamped_length]
        exact hlen
      cases hts : timeStamped (front ++ [lastId]) 0 with
      | nil => rw [hts] at this; simp at this
      | cons e rest =>
        rw [hts] at this
        simp only [List.length_cons] at this
        simp only [List.tail_cons]
        omega

end Chronos.Epidemic

namespace Chronos.Epidemic

/-- C6: Epidemic Routing buffer management. After any receive_message or
on_message_create the buffer holds at most buffer_size messages; the entry
manage_buffer evicts always carries the minimal (oldest) first-seen time;
and creating capacity + 1 distinct messages on consecutive steps starting
from an empty buffer leaves exactly capacity messages, the evicted one
being the first created — the one with the oldest first-seen timestamp. -/
theorem epidemic_capacity_and_eviction (n : ENode) (msgs : List String)
    (mid : String) (cap : Nat) (ids : List String)
    (hnd : ids.Nodup) (hlen : ids.length = cap + 1) :
    (receive_message n msgs).buffer.length ≤ n.buffer_size ∧
    (on_message_create n mid).buffer.length ≤ n.buffer_size ∧
    (∀ e ∈ n.buffer, minSeen n.buffer ≤ e.2) ∧
    (createSeq ⟨[], cap, 0⟩ ids).buffer = (timeStamped ids 0).tail ∧
    (createSeq ⟨[], cap, 0⟩ ids).buffer.length = cap := by
  refine ⟨?_, ?_, fun e he => minSeen_le n.buffer e he,
    (epidemic_scenario cap ids hnd hlen).1,
    (epidemic_scenario cap ids hnd hlen).2⟩
  · simp only [receive_message]
    exact manage_buffer_le _ _
  · simp only [on_message_create]
    exact manage_buffer_le _ _

/-- C6 witness: capacity 2 with three distinct messages created on
consecutive steps — the first one (seen at time 0) is evicted — and the
length bounds evaluated on a small concrete node. -/
theorem epidemic_capacity_and_eviction_witness :
    (receive_message ⟨[("x", 0)], 1, 5⟩ ["y"]).buffer.length ≤ 1 ∧
    (on_message_create ⟨[("x", 0)], 1, 5⟩ "z").buffer.length ≤ 1 ∧
    (∀ e ∈ ([("x", 0)] : List (String × Nat)), minSeen [("x", 0)] ≤ e.2) ∧
    (createSeq ⟨[], 2, 0⟩ ["a", "b", "c"]).buffer =
      (timeStamped ["a", "b", "c"] 0).tail ∧
    (createSeq ⟨[], 2, 0⟩ ["a", "b", "c"]).buffer.length = 2 :=
  epidemic_capacity_and_eviction ⟨[("x", 0)], 1, 5⟩ ["y"] "z" 2 ["a", "b", "c"]
    (by decide) (by decide)

end Chronos.Epidemic

namespace Chronos.StepTrace

/-- The movement block of the main loop for the nodes of the grid. -/
theorem moveBlock_count (n : Nat) :
    ∀ (nodes : List Nat), nodes.Nodup → n ∈ nodes →
      ((nodes.map (fun m => [Event.stepEnd m, Event.move m])).flatten).count
        (Event.stepEnd n) = 1
  | m :: rest, hnd, hmem => by
    simp only [List.map_cons, List.flatten_cons, List.count_append]
    rcases List.mem_cons.mp hmem with rfl | hmem2
    · have hrest : (rest.map (fun m => [Event.stepEnd m, Event.move m])).flatten.count
          (Event.stepEnd n) = 0 := by
        rw [List.count_eq_zero]
        intro habs
        obtain ⟨l, hl, hin⟩ := List.mem_flatten.mp habs
        obtain ⟨m2, hm2, rfl⟩ := List.mem_map.mp hl
        simp only [List.mem_cons, List.not_mem_nil, or_false] at hin
        rcases hin with h | h
        · cases h
          exact (List.nodup_cons.mp hnd).1 hm2
        · cases h
      simp [hrest, List.count_cons]
    · have hne : m ≠ n := by
        intro rfl2
        exact (List.nodup_cons.mp hnd).1 (rfl2 ▸ hmem2)
      have hhead : ([Event.stepEnd m, Event.move m]).count (Event.stepEnd n) = 0 := by
        simp [List.count_cons, hne]
      rw [hhead, moveBlock_count n rest (List.nodup_cons.mp hnd).2 hmem2]

/-- Each node appears once in the phase 4 stepEnd sweep. -/
theorem stepEndBlock_count (n : Nat) :
    ∀ (nodes : List Nat), nodes.Nodup → n ∈ nodes →
      (nodes.map Event.stepEnd).count (Event.stepEnd n) = 1
  | m :: rest, hnd, hmem => by
    simp only [List.map_cons, List.count_cons]
    rcases List.mem_cons.mp hmem with rfl | hmem2
    · have hrest : (rest.map Event.stepEnd).count (Event.stepEnd n) = 0 := by
        rw [List.count_eq_zero]
        intro habs
        obtain ⟨m2, hm2, heq⟩ := List.mem_map.mp habs
        cases heq
        exact (List.nodup_cons.mp hnd).1 hm2
      simp [hrest]
    · have hne : n ≠ m := by
        intro rfl2
        exact (List.nodup_cons.mp hnd).1 (rfl2 ▸ hmem2)
      have hf : ((Event.stepEnd m == Event.stepEnd n) : Bool) = false := by
        simp [Ne.symm hne]
      rw [hf, stepEndBlock_count n rest (List.nodup_cons.mp hnd).2 hmem2]
      simp

/-- An infix survives prepending. -/
theorem infix_append_left {x t : List Event} (pre : List Event)
    (h : x <:+: t) : x <:+: pre ++ t := by
  obtain ⟨s, u, rfl⟩ := h
  exact ⟨pre ++ s, u, by simp⟩

/-- The movement block contains the adjacent pair stepEnd n, move n. -/
theorem moveBlock_pair (n : Nat) :
    ∀ (nodes : List Nat), n ∈ nodes →
      [Event.stepEnd n, Event.move n] <:+:
        (nodes.map (fun m => [Event.stepEnd m, Event.move m])).flatten
  | m :: rest, hmem => by
    simp only [List.map_cons, List.flatten_cons]
    rcases List.mem_cons.mp hmem with rfl | hmem2
    · exact ⟨[], (rest.map (fun m => [Event.stepEnd m, Event.move m])).flatten,
        by simp⟩
    · exact infix_append_left _ (moveBlock_pair n rest hmem2)

end Chronos.StepTrace

namespace Chronos.StepTrace

/-- C2 (amended): in every iteration of the worker main loop,
on_simulation_step_end is called exactly twice on each grid node — once by
phase 4 of _simulate_step and once by the loop itself — never before the
collision-pair exchanges of the step are all done (no exchange event
follows any stepEnd event), and the loop call is immediately followed by
the node's move. -/
theorem loopBody_step_end_twice (pairs : List (Nat × Nat)) (nodes : List Nat)
    (n : Nat) (hnd : nodes.Nodup) (hmem : n ∈ nodes) :
    (loopBodyEvents pairs nodes).count (Event.stepEnd n) = 2 ∧
    (∀ l1 l2, loopBodyEvents pairs nodes = l1 ++ l2 →
      Event.stepEnd n ∈ l1 → ∀ a b, Event.exchange a b ∉ l2) ∧
    [Event.stepEnd n, Event.move n] <:+: loopBodyEvents pairs nodes := by
  have hsplit : loopBodyEvents pairs nodes =
      (Event.spawnMessages ::
        (pairs.map (fun p => Event.preCollision p.1 p.2)) ++
          (pairs.map pairEvents).flatten) ++
      (nodes.map Event.stepEnd ++ Event.sendState ::
        (nodes.map (fun m => [Event.stepEnd m, Event.move m])).flatten) := by
    simp [loopBodyEvents, simulateStepEvents, List.append_assoc]
  have hAnot : ∀ k : Nat, Event.stepEnd k ∉
      (Event.spawnMessages ::
        (pairs.map (fun p => Event.preCollision p.1 p.2)) ++
          (pairs.map pairEvents).flatten) := by
    intro k habs
    simp only [List.cons_append, List.mem_cons, List.mem_append, List.mem_map,
      List.mem_flatten] at habs
    rcases habs with h | ⟨p, _, h⟩ | ⟨l, ⟨p, _, rfl⟩, h⟩
    · cases h
    · cases h
    · simp only [pairEvents, List.mem_cons, List.not_mem_nil, or_false] at h
      rcases h with h | h | h <;> cases h
  have hBnoexch : ∀ a b : Nat, Event.exchange a b ∉
      (nodes.map Event.stepEnd ++ Event.sendState ::
        (nodes.map (fun m => [Event.stepEnd m, Event.move m])).flatten) := by
    intro a b habs
    simp only [List.mem_append, List.mem_map, List.mem_cons,
      List.mem_flatten] at habs
    rcases habs with ⟨m, _, h⟩ | h | ⟨l, ⟨m, _, rfl⟩, h⟩
    · cases h
    · cases h
    · simp only [List.mem_cons, List.not_mem_nil, or_false] at h
      rcases h with h | h <;> cases h
  refine ⟨?_, ?_, ?_⟩
  · rw [hsplit, List.count_append]
    have hA : (Event.spawnMessages ::
        (pairs.map (fun p => Event.preCollision p.1 p.2)) ++
          (pairs.map pairEvents).flatten).count (Event.stepEnd n) = 0 :=
      List.count_eq_zero.mpr (hAnot n)
    rw [hA, List.count_append, stepEndBlock_count n nodes hnd hmem]
    have hsend : (Event.sendState ::
        (nodes.map (fun m => [Event.stepEnd m, Event.move m])).flatten).count
        (Event.stepEnd n) =
        ((nodes.map (fun m => [Event.stepEnd m, Event.move m])).flatten).count
          (Event.stepEnd n) := by
      simp [List.count_cons]
    rw [hsend, moveBlock_count n nodes hnd hmem]
  · intro l1 l2 heq hmem1 a b habs
    have h2 : l1 ++ l2 =
        (Event.spawnMessages ::
          (pairs.map (fun p => Event.preCollision p.1 p.2)) ++
            (pairs.map pairEvents).flatten) ++
        (nodes.map Event.stepEnd ++ Event.sendState ::
          (nodes.map (fun m => [Event.stepEnd m, Event.move m])).flatten) := by
      rw [← heq, hsplit]
    rcases List.append_eq_append_iff.mp h2 with ⟨a', hA', _⟩ | ⟨c', _, hB'⟩
    · exact hAnot n (hA' ▸ List.mem_append_left a' hmem1)
    · exact hBnoexch a b (hB' ▸ List.mem_append_right c' habs)
  · obtain ⟨s, t, hst⟩ := moveBlock_pair n nodes hmem
    refine ⟨(Event.spawnMessages ::
        (pairs.map (fun p => Event.preCollision p.1 p.2)) ++
          (pairs.map pairEvents).flatten) ++
        (nodes.map Event.stepEnd ++ Event.sendState :: s), t, ?_⟩
    rw [hsplit, ← hst]
    simp [List.append_assoc]

/-- C2 witness: the amended theorem evaluated on a grid of two nodes with
one collision pair. -/
theorem loopBody_step_end_twice_witness :
    (loopBodyEvents [(0, 1)] [0, 1]).count (Event.stepEnd 0) = 2 ∧
    (∀ l1 l2, loopBodyEvents [(0, 1)] [0, 1] = l1 ++ l2 →
      Event.stepEnd 0 ∈ l1 → ∀ a b, Event.exchange a b ∉ l2) ∧
    [Event.stepEnd 0, Event.move 0] <:+: loopBodyEvents [(0, 1)] [0, 1] :=
  loopBody_step_end_twice [(0, 1)] [0, 1] 0 (by decide) (by decide)

end Chronos.StepTrace
